import Mathlib

/-!
Verification development for the roto filter-language compiler and VM.

The Rust sources are embedded shallowly: each Lean definition mirrors one
Rust item (same name where Lean allows it).  Machine integers are modelled
as `Nat`, `ShortString` as `String`, `Vec` as `List`, fallible functions as
`Except`.  Definitions coming from parts of the repository that are not in
the source tree (the `vm`, `typechecker::types`, `types::enum_types`,
`types::lazyrecord_types`, `types::collections` modules and the external
`routecore` crate) are modelled from the specification and carry a doc
comment saying so.
-/

namespace Roto

/-- Modelled from the spec: `GlobalEnum(name)` — the global enums known to
the type system.  The definition file (`types/enum_types.rs`) is absent;
the only variant referenced from the available sources is the BMP message
type enum. -/
inductive GlobalEnumTypeDef where
  | BmpMessageType
deriving DecidableEq, Repr

/-- Modelled from the spec: the variant tags of byte-backed lazy records
(`types/lazyrecord_types.rs` is absent).  The variants are those referenced
from `types/typedef.rs` and `types/builtin/bmp_message.rs`: the BGP UPDATE
message and the six BMP message kinds. -/
inductive LazyRecordTypeDef where
  | UpdateMessage
  | RouteMonitoring
  | PeerDownNotification
  | PeerUpNotification
  | InitiationMessage
  | TerminationMessage
  | StatisticsReport
deriving DecidableEq, Repr

/-- Modelled from the spec: the `accept`/`reject` verdict carried by the
apply section (`ast::AcceptReject`; the legacy `ast.rs` that defines it is
absent). -/
inductive AcceptReject where
  | Accept
  | Reject
  | NoReturn
deriving DecidableEq, Repr

/-- Modelled from the spec: a field-access path, a sequence of field
indices (`vm::FieldIndex`; `vm.rs` is absent).  Tokens in the spec are
`FieldAccess(path: [u8])`. -/
def FieldIndex := List Nat

/-- Modelled from the spec: VM error kinds (`vm::VmError`; `vm.rs` is
absent).  Spec §7 lists `InvalidMsgType`, `InvalidPayload`,
`InvalidMethodCall`, `InvalidWrite`. -/
inductive VmError where
  | InvalidMsgType
  | InvalidPayload
  | InvalidMethodCall
  | InvalidWrite
deriving DecidableEq, Repr

mutual

/-- `TypeDef` from `types/typedef.rs`: the tagged sum of all roto types.
The `Rib` payload `RibTypeDef = (Box<TypeDef>, Option<Vec<FieldIndex>>)`
is inlined as two arguments. -/
inductive TypeDef where
  | Rib (rec : TypeDef) (uniq : Option (List (List Nat)))
  | Table (rec : TypeDef)
  | OutputStream (rec : TypeDef)
  | List (inner : TypeDef)
  | Record (rec : RecordTypeDef)
  | GlobalEnum (e : GlobalEnumTypeDef)
  | ConstEnumVariant (enumName : String)
  | LazyRecord (l : LazyRecordTypeDef)
  | U32
  | U16
  | U8
  | Bool
  | Prefix
  | PrefixLength
  | AfiSafi
  | PathId
  | IpAddr
  | Asn
  | PrefixRoute
  | FlowSpecRoute
  | RouteContext
  | AsPath
  | Hop
  | Community
  | Nlri
  | Origin
  | LocalPref
  | MultiExitDisc
  | NextHop
  | AtomicAggregate
  | AggregatorInfo
  | Provenance
  | NlriStatus
  | PeerId
  | PeerRibType
  | HexLiteral
  | IntegerLiteral
  | StringLiteral
  | AcceptReject (ar : AcceptReject)
  | Unknown

/-- `RecordTypeDef` from `types/typedef.rs`: a wrapper around the sorted
vector of named fields (`Vec<NamedTypeDef>` with
`NamedTypeDef = (ShortString, Box<TypeDef>)`). -/
inductive RecordTypeDef where
  | mk (fields : List (String × TypeDef))

end

/-- `NamedTypeDef` from `types/typedef.rs`. -/
abbrev NamedTypeDef := String × TypeDef

/-- The field vector stored inside a `RecordTypeDef` (its `.0` in Rust). -/
def RecordTypeDef.fields : RecordTypeDef → List NamedTypeDef
  | .mk fs => fs

/-- `TypeDef::test_type_conversion` from `types/typedef.rs`, the expansion
of the `typedefconversion!` macro invocation at lines 243-299: `true` iff
`self` may be implicitly converted into `into_ty`.  The source line for
`IntegerLiteral` lists `StringLiteral` twice
(`IntegerLiteral(StringLiteral,U8,U32,StringLiteral,PrefixLength,LocalPref,Asn;ConstEnumVariant)`);
in the expanded Rust `match` the second arm is unreachable, so it appears
once here. -/
def test_type_conversion (self : TypeDef) (into_ty : TypeDef) : Bool :=
  match self with
  | .U8 =>
    match into_ty with
    | .StringLiteral | .U16 | .U32 | .PrefixLength | .Asn | .IntegerLiteral => true
    | _ => false
  | .U16 =>
    match into_ty with
    | .StringLiteral | .U32 | .PrefixLength | .Asn | .IntegerLiteral | .LocalPref => true
    | _ => false
  | .U32 =>
    match into_ty with
    | .StringLiteral | .Asn | .IntegerLiteral => true
    | _ => false
  | .Bool =>
    match into_ty with
    | .StringLiteral => true
    | _ => false
  | .IpAddr =>
    match into_ty with
    | .StringLiteral => true
    | _ => false
  | .Prefix =>
    match into_ty with
    | .StringLiteral => true
    | _ => false
  | .Hop =>
    match into_ty with
    | .StringLiteral => true
    | _ => false
  | .Community =>
    match into_ty with
    | .StringLiteral => true
    | _ => false
  | .Nlri =>
    match into_ty with
    | .StringLiteral => true
    | _ => false
  | .Origin =>
    match into_ty with
    | .StringLiteral => true
    | _ => false
  | .NextHop =>
    match into_ty with
    | .StringLiteral => true
    | _ => false
  | .NlriStatus =>
    match into_ty with
    | .StringLiteral => true
    | _ => false
  | .IntegerLiteral =>
    match into_ty with
    | .StringLiteral | .U8 | .U32 | .PrefixLength | .LocalPref | .Asn => true
    | .ConstEnumVariant _ => true
    | _ => false
  | .StringLiteral =>
    match into_ty with
    | .Asn => true
    | _ => false
  | .HexLiteral =>
    match into_ty with
    | .StringLiteral | .U8 | .U32 | .Community => true
    | _ => false
  | .PrefixLength =>
    match into_ty with
    | .StringLiteral | .IntegerLiteral | .U8 | .U32 => true
    | _ => false
  | .Provenance =>
    match into_ty with
    | .StringLiteral => true
    | _ => false
  | .AfiSafi =>
    match into_ty with
    | .StringLiteral => true
    | _ => false
  | .PeerId =>
    match into_ty with
    | .StringLiteral => true
    | _ => false
  | .PeerRibType =>
    match into_ty with
    | .StringLiteral => true
    | _ => false
  | .PathId =>
    match into_ty with
    | .StringLiteral | .IntegerLiteral | .U32 => true
    | _ => false
  | .Asn =>
    match into_ty with
    | .StringLiteral | .U32 => true
    | _ => false
  | .AsPath =>
    match into_ty with
    | .StringLiteral => true
    | .List _ => true
    | _ => false
  | .LocalPref =>
    match into_ty with
    | .StringLiteral | .U8 | .U16 | .U32 | .IntegerLiteral => true
    | _ => false
  | .MultiExitDisc =>
    match into_ty with
    | .StringLiteral | .U8 | .IntegerLiteral => true
    | _ => false
  | .AtomicAggregate =>
    match into_ty with
    | .StringLiteral | .Bool => true
    | _ => false
  | .AggregatorInfo =>
    match into_ty with
    | .StringLiteral | .U8 => true
    | _ => false
  | .Record _ =>
    match into_ty with
    | .StringLiteral => true
    | .Record _ => true
    | .OutputStream _ => true
    | _ => false
  | .LazyRecord _ =>
    match into_ty with
    | .StringLiteral => true
    | .Record _ => true
    | .OutputStream _ => true
    | _ => false
  | .AcceptReject _ =>
    match into_ty with
    | .StringLiteral => true
    | _ => false
  | .List _ =>
    match into_ty with
    | .StringLiteral => true
    | _ => false
  | .ConstEnumVariant _ =>
    match into_ty with
    | .StringLiteral | .U32 | .Community => true
    | _ => false
  | .PrefixRoute => false
  | .FlowSpecRoute => false
  | .RouteContext => false
  | .Unknown => false
  | .GlobalEnum _ => false
  | .Rib _ _ => false
  | .Table _ => false
  | .OutputStream _ => false

/-- Lexicographic comparison of two strings, the model of `Ord` on the
byte-backed `ShortString`.  Expressed through Mathlib's linear order on
`String` (lexicographic on characters). -/
def strCmp (a b : String) : Ordering :=
  if a < b then .lt else if b < a then .gt else .eq

/-- Comparison of `GlobalEnumTypeDef` (derived `Ord`). -/
def globalEnumCmp : GlobalEnumTypeDef → GlobalEnumTypeDef → Ordering
  | .BmpMessageType, .BmpMessageType => .eq

/-- Variant rank of `LazyRecordTypeDef` in declaration order (derived
`Ord` compares by it). -/
def lazyRecordRank : LazyRecordTypeDef → Nat
  | .UpdateMessage => 0
  | .RouteMonitoring => 1
  | .PeerDownNotification => 2
  | .PeerUpNotification => 3
  | .InitiationMessage => 4
  | .TerminationMessage => 5
  | .StatisticsReport => 6

/-- Comparison of `LazyRecordTypeDef` (derived `Ord`: declaration order). -/
def lazyRecordCmp (a b : LazyRecordTypeDef) : Ordering :=
  compare (lazyRecordRank a) (lazyRecordRank b)

/-- Variant rank of `AcceptReject` in declaration order. -/
def acceptRejectRank : AcceptReject → Nat
  | .Accept => 0
  | .Reject => 1
  | .NoReturn => 2

/-- Comparison of `AcceptReject` (derived `Ord`: declaration order). -/
def acceptRejectCmp (a b : AcceptReject) : Ordering :=
  compare (acceptRejectRank a) (acceptRejectRank b)

/-- Lexicographic comparison of lists given a comparison on elements, the
model of `Ord` on `Vec`/slices. -/
def listCmpWith (cmp : α → α → Ordering) : List α → List α → Ordering
  | [], [] => .eq
  | [], _ :: _ => .lt
  | _ :: _, [] => .gt
  | x :: xs, y :: ys => (cmp x y).then (listCmpWith cmp xs ys)

/-- Comparison of a `FieldIndex` (a vector of indices, derived `Ord`). -/
def fieldIndexCmp (a b : List Nat) : Ordering :=
  listCmpWith compare a b

/-- Comparison of `Option` values (derived `Ord`: `None < Some`). -/
def optionCmpWith (cmp : α → α → Ordering) (a b : Option α) : Ordering :=
  match a, b with
  | some x, some y => cmp x y
  | some _, none => .gt
  | none, some _ => .lt
  | none, none => .eq

/-- Variant rank of `TypeDef` in declaration order; the derived `Ord`
compares variants by it before comparing payloads. -/
def typeDefRank : TypeDef → Nat
  | .Rib _ _ => 0
  | .Table _ => 1
  | .OutputStream _ => 2
  | .List _ => 3
  | .Record _ => 4
  | .GlobalEnum _ => 5
  | .ConstEnumVariant _ => 6
  | .LazyRecord _ => 7
  | .U32 => 8
  | .U16 => 9
  | .U8 => 10
  | .Bool => 11
  | .Prefix => 12
  | .PrefixLength => 13
  | .AfiSafi => 14
  | .PathId => 15
  | .IpAddr => 16
  | .Asn => 17
  | .PrefixRoute => 18
  | .FlowSpecRoute => 19
  | .RouteContext => 20
  | .AsPath => 21
  | .Hop => 22
  | .Community => 23
  | .Nlri => 24
  | .Origin => 25
  | .LocalPref => 26
  | .MultiExitDisc => 27
  | .NextHop => 28
  | .AtomicAggregate => 29
  | .AggregatorInfo => 30
  | .Provenance => 31
  | .NlriStatus => 32
  | .PeerId => 33
  | .PeerRibType => 34
  | .HexLiteral => 35
  | .IntegerLiteral => 36
  | .StringLiteral => 37
  | .AcceptReject _ => 38
  | .Unknown => 39

mutual

/-- The derived `Ord` on `TypeDef` (`#[derive(.., Ord, PartialOrd, ..)]`):
variants compare in declaration order, equal variants compare their
payloads lexicographically. -/
def typeDefCmp : TypeDef → TypeDef → Ordering
  | .Rib r₁ u₁, .Rib r₂ u₂ =>
    (typeDefCmp r₁ r₂).then (optionCmpWith (listCmpWith fieldIndexCmp) u₁ u₂)
  | .Table r₁, .Table r₂ => typeDefCmp r₁ r₂
  | .OutputStream r₁, .OutputStream r₂ => typeDefCmp r₁ r₂
  | .List t₁, .List t₂ => typeDefCmp t₁ t₂
  | .Record r₁, .Record r₂ => recordTypeDefCmp r₁ r₂
  | .GlobalEnum e₁, .GlobalEnum e₂ => globalEnumCmp e₁ e₂
  | .ConstEnumVariant s₁, .ConstEnumVariant s₂ => strCmp s₁ s₂
  | .LazyRecord l₁, .LazyRecord l₂ => lazyRecordCmp l₁ l₂
  | .AcceptReject a₁, .AcceptReject a₂ => acceptRejectCmp a₁ a₂
  | a, b => compare (typeDefRank a) (typeDefRank b)

/-- The derived `Ord` on `RecordTypeDef`: the `Ord` of its field vector. -/
def recordTypeDefCmp : RecordTypeDef → RecordTypeDef → Ordering
  | .mk fs, .mk gs => fieldsCmp fs gs

/-- `Ord` on `Vec<NamedTypeDef>`: lexicographic over the pairs
`(ShortString, Box<TypeDef>)`, each pair compared name first. -/
def fieldsCmp : List (String × TypeDef) → List (String × TypeDef) → Ordering
  | [], [] => .eq
  | [], _ :: _ => .lt
  | _ :: _, [] => .gt
  | (n₁, t₁) :: xs, (n₂, t₂) :: ys =>
    ((strCmp n₁ n₂).then (typeDefCmp t₁ t₂)).then (fieldsCmp xs ys)

end

/-- `Ord` on `NamedTypeDef = (ShortString, Box<TypeDef>)`: name first,
then the type definition. -/
def namedTypeDefCmp (a b : NamedTypeDef) : Ordering :=
  (strCmp a.1 b.1).then (typeDefCmp a.2 b.2)

/-- The `le` switch corresponding to `namedTypeDefCmp`; `Vec::sort`
(a stable merge sort) orders by it, modelled below with
`List.mergeSort`. -/
def namedTypeDefLe (a b : NamedTypeDef) : Bool :=
  namedTypeDefCmp a b ≠ .gt

/-- `RecordTypeDef::new` from `types/typedef.rs`: sorts the named-field
vector in place (`named_type_vec.sort()`) and wraps it. -/
def RecordTypeDef.new (named_type_vec : List NamedTypeDef) : RecordTypeDef :=
  .mk (named_type_vec.mergeSort namedTypeDefLe)

/-- `impl From<Vec<NamedTypeDef>> for RecordTypeDef`: sorts and wraps. -/
def RecordTypeDef.fromNamedTypeDefs (value : List NamedTypeDef) : RecordTypeDef :=
  .mk (value.mergeSort namedTypeDefLe)

/-- `impl From<Vec<(&str, Box<TypeDef>)>> for RecordTypeDef`: sorts, then
converts each `&str` key into a `ShortString` (the identity in this
model). -/
def RecordTypeDef.fromStrPairs (value : List (String × TypeDef)) : RecordTypeDef :=
  .mk ((value.mergeSort namedTypeDefLe).map (fun std => (std.1, std.2)))

/-- `CompileError` from `compiler/compile.rs` (absent from the sources):
modelled from the spec as a message carrier. -/
inductive CompileError where
  | msg (s : String)
deriving DecidableEq, Repr

/-- `TypeDef::new_record_type_from_short_string` from `types/typedef.rs`:
sorts the pairs, then builds a record type via `RecordTypeDef::new`
(which sorts again). -/
def new_record_type_from_short_string (type_ident_pairs : List NamedTypeDef) :
    Except CompileError TypeDef :=
  .ok (.Record (RecordTypeDef.new (type_ident_pairs.mergeSort namedTypeDefLe)))

mutual

/-- The derived `PartialEq` on `TypeDef`: structural, except that a
`Record` payload is compared with `RecordTypeDef`'s manual `PartialEq`. -/
def typeDefBeq : TypeDef → TypeDef → Bool
  | .Rib r₁ u₁, .Rib r₂ u₂ => typeDefBeq r₁ r₂ && u₁ == u₂
  | .Table r₁, .Table r₂ => typeDefBeq r₁ r₂
  | .OutputStream r₁, .OutputStream r₂ => typeDefBeq r₁ r₂
  | .List t₁, .List t₂ => typeDefBeq t₁ t₂
  | .Record r₁, .Record r₂ => recordTypeDefEq r₁ r₂
  | .GlobalEnum e₁, .GlobalEnum e₂ => e₁ == e₂
  | .ConstEnumVariant s₁, .ConstEnumVariant s₂ => s₁ == s₂
  | .LazyRecord l₁, .LazyRecord l₂ => l₁ == l₂
  | .AcceptReject a₁, .AcceptReject a₂ => a₁ == a₂
  | .U32, .U32 => true
  | .U16, .U16 => true
  | .U8, .U8 => true
  | .Bool, .Bool => true
  | .Prefix, .Prefix => true
  | .PrefixLength, .PrefixLength => true
  | .AfiSafi, .AfiSafi => true
  | .PathId, .PathId => true
  | .IpAddr, .IpAddr => true
  | .Asn, .Asn => true
  | .PrefixRoute, .PrefixRoute => true
  | .FlowSpecRoute, .FlowSpecRoute => true
  | .RouteContext, .RouteContext => true
  | .AsPath, .AsPath => true
  | .Hop, .Hop => true
  | .Community, .Community => true
  | .Nlri, .Nlri => true
  | .Origin, .Origin => true
  | .LocalPref, .LocalPref => true
  | .MultiExitDisc, .MultiExitDisc => true
  | .NextHop, .NextHop => true
  | .AtomicAggregate, .AtomicAggregate => true
  | .AggregatorInfo, .AggregatorInfo => true
  | .Provenance, .Provenance => true
  | .NlriStatus, .NlriStatus => true
  | .PeerId, .PeerId => true
  | .PeerRibType, .PeerRibType => true
  | .HexLiteral, .HexLiteral => true
  | .IntegerLiteral, .IntegerLiteral => true
  | .StringLiteral, .StringLiteral => true
  | .Unknown, .Unknown => true
  | _, _ => false

/-- `impl PartialEq for RecordTypeDef` from `types/typedef.rs` lines
101-121: the two field vectors are completely equal, or the zipped field
names all agree (the zip stops at the shorter vector; field types are
ignored by the second test). -/
def recordTypeDefEq : RecordTypeDef → RecordTypeDef → Bool
  | .mk fs, .mk gs =>
    if fieldsBeq fs gs then
      true
    else
      (fs.zip gs).all (fun p => p.1.1 == p.2.1)

/-- `PartialEq` on `Vec<NamedTypeDef>`: elementwise, same length. -/
def fieldsBeq : List (String × TypeDef) → List (String × TypeDef) → Bool
  | [], [] => true
  | (n₁, t₁) :: xs, (n₂, t₂) :: ys =>
    n₁ == n₂ && typeDefBeq t₁ t₂ && fieldsBeq xs ys
  | _, _ => false

end

/-- `BinOp` from `ast.rs` lines 216-227: the binary operators of the
expression language. -/
inductive BinOp where
  | And
  | Or
  | Eq
  | Ne
  | Lt
  | Le
  | Gt
  | Ge
  | In
  | NotIn
deriving DecidableEq, Repr

/-- `impl std::fmt::Display for BinOp` from `ast.rs` lines 229-248: the
string each operator is formatted as. -/
def BinOp.display : BinOp → String
  | .And => "&&"
  | .Or => "||"
  | .Eq => "=="
  | .Ne => "!="
  | .Lt => "<="
  | .Le => "<"
  | .Gt => ">="
  | .Ge => "<"
  | .In => "in"
  | .NotIn => "not in"

/-- `LongSegmentError` from `attr_change_set.rs`: appending to an AS-path
segment can overflow the segment. -/
inductive LongSegmentError where
  | mk
deriving DecidableEq, Repr

/-- Modelled from the spec: one segment of an AS path (`routecore`'s
`OwnedPathSegment`, an external crate).  A segment holds an ordered list
of ASNs; its on-wire length field is a single byte, so `append` fails with
`LongSegmentError` once the segment holds 255 ASNs. -/
structure OwnedPathSegment where
  elems : List Nat
deriving DecidableEq, Repr

/-- Modelled from the spec: `OwnedPathSegment::append` of the external
`routecore` crate; fails when the segment is full. -/
def OwnedPathSegment.append (seg : OwnedPathSegment) (asn : Nat) :
    Except LongSegmentError OwnedPathSegment :=
  if seg.elems.length ≥ 255 then .error .mk else .ok ⟨seg.elems ++ [asn]⟩

/-- `types::builtin::AsPath`: a newtype around `routecore`'s `HopPath`,
modelled as its segment list.  `Default` is the empty path. -/
structure AsPath where
  segments : List OwnedPathSegment
deriving DecidableEq, Repr

/-- Appending every ASN of `vector` to `seg` in order
(the inner `for asn in vector { seg.append(asn)?; }` loop of
`insert_vec`). -/
def appendAll (seg : OwnedPathSegment) : List Nat → Except LongSegmentError OwnedPathSegment
  | [] => .ok seg
  | asn :: rest => do
    let seg ← seg.append asn
    appendAll seg rest

/-- The `for (i, seg) in as_path.into_iter().enumerate()` loop of
`insert_vec` (`attr_change_set.rs` lines 312-331): it only acts at
`i == pos`, where it appends `vector` into an owned copy of that segment,
pushes the result onto `new_path` and breaks. -/
def insertVecLoop (pos : Nat) (vector : List Nat) :
    List OwnedPathSegment → Nat → List OwnedPathSegment →
    Except LongSegmentError (List OwnedPathSegment)
  | [], _, new_path => .ok new_path
  | seg :: rest, i, new_path =>
    if i = pos then do
      let seg ← appendAll seg vector
      .ok (new_path ++ [seg])
    else
      insertVecLoop pos vector rest (i + 1) new_path

/-- `VectorValue::insert_vec` for `AsPath` from `attr_change_set.rs` lines
312-331.  `self.0` is taken out (`std::mem::take`), the loop builds
`new_path`, and then the function writes the original path back
(`*self = AsPath(as_path)`), discarding `new_path`.  The returned pair is
(the `Result`, the state of `self` afterwards); if the loop's `append`
fails, `self` is left holding the taken-out default (empty) path. -/
def insert_vec (self : AsPath) (pos : Nat) (vector : List Nat) :
    Except LongSegmentError Unit × AsPath :=
  let as_path := self.segments
  match insertVecLoop pos vector as_path 0 [] with
  | .error e => (.error e, ⟨[]⟩)
  | .ok _new_path => (.ok (), ⟨as_path⟩)

/-- Modelled from the spec: the value universe (`types/typevalue.rs` is
absent).  Only the constructors the embedded functions need are included:
`Unknown` is the sentinel returned on variant mismatch, `Builtin` carries
some builtin scalar (abstracted to a tag and a number). -/
inductive TypeValue where
  | Unknown
  | Builtin (tag : String) (n : Nat)
deriving DecidableEq, Repr

/-- A `BytesRecord<BmpMessage>` as observed through its accessors: the
variant its common header parses to (`get_variant`), and, per supported
variant, the lazy-record field extraction backed by the external byte
parsers (modelled from the spec; `types/collections.rs` and `routecore`
are absent). -/
structure BytesRecordBmpMessage where
  variant : LazyRecordTypeDef
  routeMonitoringField : FieldIndex → Except VmError TypeValue
  peerDownField : FieldIndex → Except VmError TypeValue
  peerUpField : FieldIndex → Except VmError TypeValue
  initiationField : FieldIndex → Except VmError TypeValue
  statisticsField : FieldIndex → Except VmError TypeValue

/-- `EnumBytesRecord::get_variant` for `BytesRecord<BmpMessage>`
(`types/builtin/bmp_message.rs` lines 96-99): the variant read from the
common header's `msg_type`. -/
def BytesRecordBmpMessage.get_variant (self : BytesRecordBmpMessage) :
    LazyRecordTypeDef :=
  self.variant

/-- `EnumBytesRecord::get_field_index_for_variant` for
`BytesRecord<BmpMessage>` (`types/builtin/bmp_message.rs` lines 105-211):
an empty field index is an `InvalidMethodCall` error; a variant token that
differs from the record's actual variant returns `Ok(Unknown)`; otherwise
the matching per-variant lazy record is consulted
(`TerminationMessage` and `UpdateMessage` fall into the catch-all
`InvalidMethodCall` arm). -/
def BytesRecordBmpMessage.get_field_index_for_variant
    (self : BytesRecordBmpMessage) (variant_token : LazyRecordTypeDef)
    (field_index : FieldIndex) : Except VmError TypeValue :=
  if List.isEmpty field_index then
    .error .InvalidMethodCall
  else if variant_token ≠ self.get_variant then
    .ok .Unknown
  else
    match variant_token with
    | .RouteMonitoring => self.routeMonitoringField field_index
    | .PeerDownNotification => self.peerDownField field_index
    | .PeerUpNotification => self.peerUpField field_index
    | .InitiationMessage => self.initiationField field_index
    | .StatisticsReport => self.statisticsField field_index
    | _ => .error .InvalidMethodCall

/-! ## Type checker (`typechecker/expr.rs` over a spec-modelled core)

`typechecker/mod.rs`, `typechecker/types.rs` and `typechecker/error.rs`
are absent from the sources; the `Type` universe, the unification-variable
pool and `unify` are modelled from spec §4.2, while the expression-walking
functions below follow `typechecker/expr.rs` arm by arm (on the
sub-language of value expressions the claims quantify over: literals,
lists, anonymous and typed records). -/

/-- Modelled from the spec: the primitive types known to the checker
(`typechecker::types::Primitive`).  Those used by `typechecker/expr.rs`
plus the numeric primitives spec §4.2 lists as integer-variable
candidates. -/
inductive Primitive where
  | U8
  | U16
  | U32
  | Bool
  | String
  | Prefix
  | PrefixLength
  | AsNumber
  | IpAddress
  | Community
  | IntegerLiteral
  | LocalPref
deriving DecidableEq, Repr

/-- Modelled from the spec: the types during inference
(`typechecker::types::Type`): the declared types plus fresh type
variables, fresh integer variables and record-row variables. -/
inductive Ty where
  | Var (n : Nat)
  | IntVar (n : Nat)
  | Primitive (p : Primitive)
  | List (t : Ty)
  | Record (fields : List (String × Ty))
  | NamedRecord (name : String) (fields : List (String × Ty))
  | RecordVar (n : Nat) (fields : List (String × Ty))
  | Name (name : String)

/-- Modelled from the spec: the type-error kinds `typechecker/expr.rs`
constructs (spans dropped), plus a unification failure and the fuel
sentinel of the modelled unifier. -/
inductive TypeError where
  | Custom (description : String)
  | UndeclaredType (typeName : String)
  | MissingFields (fields : List String) (typeName : String)
  | NumberOfArgumentDontMatch (methodName : String)
  | Simple (description : String)
  | UnificationError
  | OutOfFuel

/-- The state of the checker: the fresh-variable counter, the
unification-variable pool (a substitution), and the declared-types map
(`self.types`). -/
structure TcState where
  counter : Nat
  subst : List (Nat × Ty)
  types : List (String × Ty)

/-- Look up a unification variable in the pool. -/
def lookupSubst (st : TcState) (n : Nat) : Option Ty :=
  (st.subst.find? (fun p => p.1 == n)).map (fun p => p.2)

/-- Modelled from the spec: resolve a type variable to its binding
(`resolve_type`).  The pool below keeps every binding fully resolved
(binding a variable rewrites the existing entries), so a single lookup
resolves a variable completely. -/
def resolve_type (st : TcState) (t : Ty) : Ty :=
  match t with
  | .Var n => (lookupSubst st n).getD t
  | .IntVar n => (lookupSubst st n).getD t
  | t => t

/-- Substitute `Var v`/`IntVar v` by `t` inside a type. -/
def substVar (v : Nat) (t : Ty) : Ty → Ty
  | .Var n => if n = v then t else .Var n
  | .IntVar n => if n = v then t else .IntVar n
  | .Primitive p => .Primitive p
  | .List u => .List (substVar v t u)
  | .Record fields => .Record (substFields fields)
  | .NamedRecord name fields => .NamedRecord name (substFields fields)
  | .RecordVar n fields => .RecordVar n (substFields fields)
  | .Name n => .Name n
where
  /-- Substitution under a field list. -/
  substFields : List (String × Ty) → List (String × Ty)
    | [] => []
    | (n, u) :: rest => (n, substVar v t u) :: substFields rest

/-- Bind variable `v` to `t` in the pool, eagerly substituting it into
every existing binding so bindings stay fully resolved. -/
def bindVar (st : TcState) (v : Nat) (t : Ty) : TcState :=
  { st with subst := (v, t) :: st.subst.map (fun p => (p.1, substVar v t p.2)) }

/-- Modelled from the spec: the numeric primitives an integer variable may
resolve to (`U8/U16/U32/IntegerLiteral/PrefixLength/LocalPref/…`,
spec §4.2). -/
def numericPrim : Primitive → Bool
  | .U8 | .U16 | .U32 | .IntegerLiteral | .PrefixLength | .LocalPref => true
  | _ => false

mutual

/-- Modelled from the spec: unification (§4.2).  Free type variables bind
to anything; integer variables bind to integer variables or numeric
primitives; equal primitives unify; lists unify componentwise; record
rows unify by field-name equality and recursive unification of field
types.  `fuel` makes the recursion through resolved bindings total. -/
def unify (fuel : Nat) (st : TcState) (a b : Ty) : Except TypeError TcState :=
  match fuel with
  | 0 => .error .OutOfFuel
  | fuel + 1 =>
    match resolve_type st a, resolve_type st b with
    | .Var n, t => .ok (bindVar st n t)
    | t, .Var n => .ok (bindVar st n t)
    | .IntVar n, .IntVar m => .ok (if n = m then st else bindVar st n (.IntVar m))
    | .IntVar n, .Primitive p =>
      if numericPrim p then .ok (bindVar st n (.Primitive p)) else .error .UnificationError
    | .Primitive p, .IntVar n =>
      if numericPrim p then .ok (bindVar st n (.Primitive p)) else .error .UnificationError
    | .Primitive p, .Primitive q =>
      if p = q then .ok st else .error .UnificationError
    | .List t₁, .List t₂ => unify fuel st t₁ t₂
    | .Name n, .Name m => if n = m then .ok st else .error .UnificationError
    | .Record f₁, .Record f₂ => unifyFields fuel st f₁ f₂
    | .Record f₁, .RecordVar _ f₂ => unifyFields fuel st f₁ f₂
    | .RecordVar _ f₁, .Record f₂ => unifyFields fuel st f₁ f₂
    | .RecordVar _ f₁, .RecordVar _ f₂ => unifyFields fuel st f₁ f₂
    | .NamedRecord n f₁, .NamedRecord m f₂ =>
      if n = m then unifyFields fuel st f₁ f₂ else .error .UnificationError
    | _, _ => .error .UnificationError

/-- Row unification: equal field names in order, field types unified
recursively. -/
def unifyFields (fuel : Nat) (st : TcState) :
    List (String × Ty) → List (String × Ty) → Except TypeError TcState
  | [], [] => .ok st
  | (n₁, t₁) :: xs, (n₂, t₂) :: ys =>
    if n₁ = n₂ then do
      let st ← unify fuel st t₁ t₂
      unifyFields fuel st xs ys
    else .error .UnificationError
  | _, _ => .error .UnificationError

end

/-- The unification fuel used by the expression checker; generous, and
irrelevant as long as it exceeds the depth of the types involved (the
pool keeps bindings resolved, so unification recursion is bounded by type
depth, not by program size). -/
def unifyFuel : Nat := 100

/-- `fresh_var` of the checker: a fresh free type variable. -/
def fresh_var (st : TcState) : TcState × Ty :=
  ({ st with counter := st.counter + 1 }, .Var st.counter)

/-- `fresh_int` of the checker: a fresh integer variable. -/
def fresh_int (st : TcState) : TcState × Ty :=
  ({ st with counter := st.counter + 1 }, .IntVar st.counter)

/-- `fresh_record` of the checker: a fresh record-row variable over the
given fields. -/
def fresh_record (st : TcState) (fields : List (String × Ty)) : TcState × Ty :=
  ({ st with counter := st.counter + 1 }, .RecordVar st.counter fields)

/-- `ast::LiteralExpr`, restricted to the payloads that matter for
typing. -/
inductive LiteralExpr where
  | StringLiteral (s : String)
  | PrefixLiteral (s : String)
  | PrefixLengthLiteral (n : Nat)
  | AsnLiteral (n : Nat)
  | IpAddressLiteral (s : String)
  | ExtendedCommunityLiteral (s : String)
  | StandardCommunityLiteral (s : String)
  | LargeCommunityLiteral (s : String)
  | IntegerLiteral (i : Int)
  | HexLiteral (n : Nat)
  | BooleanLiteral (b : Bool)

/-- `ast::ValueExpr`, restricted to the sub-language the claims quantify
over: literals (with an empty access chain), list expressions, anonymous
and typed record expressions. -/
inductive ValueExpr where
  | LiteralAccessExpr (literal : LiteralExpr)
  | ListExpr (values : List ValueExpr)
  | AnonymousRecordExpr (keyValues : List (String × ValueExpr))
  | TypedRecordExpr (typeId : String) (keyValues : List (String × ValueExpr))

/-- `ast::CompareArg` (the grouped-logical alternative is outside the
embedded sub-language). -/
inductive CompareArg where
  | ValueExpr (v : ValueExpr)

/-- `ast::BooleanExpr`, restricted to the arms the claims exercise. -/
inductive BooleanExpr where
  | CompareExpr (left right : CompareArg)
  | ListCompareExpr (left right : ValueExpr)
  | BooleanLiteral (b : Bool)

/-- `ast::LogicalExpr`. -/
inductive LogicalExpr where
  | OrExpr (left right : BooleanExpr)
  | AndExpr (left right : BooleanExpr)
  | NotExpr (e : BooleanExpr)
  | BooleanExpr (e : BooleanExpr)

/-- `TypeChecker::literal` from `typechecker/expr.rs` lines 276-290:
concrete primitives for the typed literals, a fresh integer variable for
integer and hex literals. -/
def literalTc (st : TcState) : LiteralExpr → TcState × Ty
  | .StringLiteral _ => (st, .Primitive .String)
  | .PrefixLiteral _ => (st, .Primitive .Prefix)
  | .PrefixLengthLiteral _ => (st, .Primitive .PrefixLength)
  | .AsnLiteral _ => (st, .Primitive .AsNumber)
  | .IpAddressLiteral _ => (st, .Primitive .IpAddress)
  | .ExtendedCommunityLiteral _ => (st, .Primitive .Community)
  | .StandardCommunityLiteral _ => (st, .Primitive .Community)
  | .LargeCommunityLiteral _ => (st, .Primitive .Community)
  | .BooleanLiteral _ => (st, .Primitive .Bool)
  | .IntegerLiteral _ => fresh_int st
  | .HexLiteral _ => fresh_int st

/-- `self.types.get(&type_id.ident.to_string())` of the TypedRecordExpr
arm. -/
def lookupTypes (st : TcState) (typeId : String) : Option Ty :=
  (st.types.find? (fun p => p.1 == typeId)).map (fun p => p.2)

/-- `record_type.iter().position(..)` followed by
`record_type.remove(idx)` in the TypedRecordExpr arm: find the first
field with the given name, return its type and the vector without it. -/
def removeField : List (String × Ty) → String → Option (Ty × List (String × Ty))
  | [], _ => none
  | (n, t) :: rest, name =>
    if n = name then some (t, rest)
    else (removeField rest name).map (fun p => (p.1, (n, t) :: p.2))

/-- The `for (name, inferred_type) in inferred_type` loop of the
TypedRecordExpr arm (`typechecker/expr.rs` lines 130-143): each inferred
field must appear in the (remaining) declared fields, is removed there,
and its type is unified with the declared type. -/
def checkInferredFields (recordName : String) (st : TcState) :
    List (String × Ty) → List (String × Ty) →
    Except TypeError (TcState × List (String × Ty))
  | record_type, [] => .ok (st, record_type)
  | record_type, (name, inferredTy) :: rest =>
    match removeField record_type name with
    | none =>
      .error (.Custom
        ("record `" ++ recordName ++ "` does not have a field `" ++ name ++ "`."))
    | some (ty, record_type') =>
      match unify unifyFuel st inferredTy ty with
      | .error e => .error e
      | .ok st => checkInferredFields recordName st record_type' rest

mutual

/-- `TypeChecker::expr` from `typechecker/expr.rs` lines 81-166, on the
embedded sub-language.  The state is threaded explicitly (`&mut self` in
Rust). -/
def exprTc (st : TcState) : ValueExpr → Except TypeError (TcState × Ty)
  | .LiteralAccessExpr lit => .ok (literalTc st lit)
  | .ListExpr values =>
    let (st, ret) := fresh_var st
    match listElemsTc st ret values with
    | .error e => .error e
    | .ok st => .ok (st, .List (resolve_type st ret))
  | .AnonymousRecordExpr keyValues =>
    match recordTypeTc st keyValues with
    | .error e => .error e
    | .ok (st, fields) => .ok (fresh_record st fields)
  | .TypedRecordExpr typeId keyValues =>
    match lookupTypes st typeId with
    | some (.NamedRecord record_name record_type) =>
      (match recordTypeTc st keyValues with
       | .error e => .error e
       | .ok (st, inferred) =>
         match checkInferredFields record_name st record_type inferred with
         | .error e => .error e
         | .ok (st, remaining) =>
           let missing := remaining.map (fun p => p.1)
           if missing.isEmpty then .ok (st, .Name record_name)
           else .error (.MissingFields missing typeId))
    | some _ =>
      .error (.Custom ("Expected a named record type, but found `" ++ typeId ++ "`"))
    | none => .error (.UndeclaredType typeId)

/-- The `for v in values` loop of the ListExpr arm: type each element and
unify it with the fresh element type. -/
def listElemsTc (st : TcState) (ret : Ty) : List ValueExpr → Except TypeError TcState
  | [] => .ok st
  | v :: rest =>
    match exprTc st v with
    | .error e => .error e
    | .ok (st, t) =>
      match unify unifyFuel st ret t with
      | .error e => .error e
      | .ok st => listElemsTc st ret rest

/-- `TypeChecker::record_type` from `typechecker/expr.rs` lines 378-390:
type each field value, collecting `(name, type)` pairs. -/
def recordTypeTc (st : TcState) :
    List (String × ValueExpr) → Except TypeError (TcState × List (String × Ty))
  | [] => .ok (st, [])
  | (k, v) :: rest =>
    match exprTc st v with
    | .error e => .error e
    | .ok (st, t) =>
      match recordTypeTc st rest with
      | .error e => .error e
      | .ok (st, fields) => .ok (st, (k, t) :: fields)

end

/-- `TypeChecker::compare_arg` from `typechecker/expr.rs` lines 68-79. -/
def compareArgTc (st : TcState) : CompareArg → Except TypeError (TcState × Ty)
  | .ValueExpr v => exprTc st v

/-- `TypeChecker::boolean_expr` from `typechecker/expr.rs` lines 33-66:
each arm performs its unifications, and the result type is `Bool`. -/
def boolean_expr (st : TcState) : BooleanExpr → Except TypeError (TcState × Ty)
  | .CompareExpr left right =>
    (match compareArgTc st left with
     | .error e => .error e
     | .ok (st, t_left) =>
       match compareArgTc st right with
       | .error e => .error e
       | .ok (st, t_right) =>
         match unify unifyFuel st t_left t_right with
         | .error e => .error e
         | .ok st => .ok (st, .Primitive .Bool))
  | .ListCompareExpr left right =>
    (match exprTc st left with
     | .error e => .error e
     | .ok (st, t_left) =>
       match exprTc st right with
       | .error e => .error e
       | .ok (st, t_right) =>
         match unify unifyFuel st (.List t_left) t_right with
         | .error e => .error e
         | .ok st => .ok (st, .Primitive .Bool))
  | .BooleanLiteral _ => .ok (st, .Primitive .Bool)

/-- `TypeChecker::logical_expr` from `typechecker/expr.rs` lines 14-31:
`&&`/`||` check both operands (left first, stopping at the first error,
the `?` operator) and return `Bool`; `!` and a bare boolean expression
delegate. -/
def logical_expr (st : TcState) : LogicalExpr → Except TypeError (TcState × Ty)
  | .OrExpr left right | .AndExpr left right =>
    (match boolean_expr st left with
     | .error e => .error e
     | .ok (st, _) =>
       match boolean_expr st right with
       | .error e => .error e
       | .ok (st, _) => .ok (st, .Primitive .Bool))
  | .NotExpr e | .BooleanExpr e => boolean_expr st e

/-! ## Pipeline (`pipeline.rs`) -/

/-- `SourceFile` from `pipeline.rs`. -/
structure SourceFile where
  name : String
  contents : String

/-- The `expr_types` map a successful per-file typecheck produces
(`HashMap<MetaId, Type>`), opaque here. -/
abbrev TypeMap := List (Nat × Ty)

/-- The `fully_qualified_names` map (`HashMap<MetaId, String>`). -/
abbrev NameMap := List (Nat × String)

/-- `RotoError` from `pipeline.rs`: the per-stage error kinds collected in
a report (payloads reduced to what the claims need). -/
inductive RotoError where
  | Read (name : String)
  | Parse (msg : String)
  | Type (e : TypeError)

/-- `RotoReport` from `pipeline.rs` (spans omitted). -/
structure RotoReport where
  files : List SourceFile
  errors : List RotoError

/-- `TypeChecked` from `pipeline.rs` (trees omitted). -/
structure TypeChecked where
  expr_types : List TypeMap
  fully_qualified_names : List NameMap

/-- The `for result in results` loop of `Parsed::typecheck` (`pipeline.rs`
lines 255-263): successful per-file results push their two maps, failed
ones push a single `RotoError::Type`. -/
def collectTypecheckResults :
    List (Except TypeError (TypeMap × NameMap)) →
    List TypeMap × List NameMap × List RotoError
  | [] => ([], [], [])
  | .ok (tm, nm) :: rest =>
    let (a, b, c) := collectTypecheckResults rest
    (tm :: a, nm :: b, c)
  | .error e :: rest =>
    let (a, b, c) := collectTypecheckResults rest
    (a, b, .Type e :: c)

/-- `Parsed::typecheck` from `pipeline.rs` lines 240-279.  Each parsed
tree is fed to the per-file checker `crate::typechecker::typecheck`,
whose result is `Result<(TypeMap, NameMap), TypeError>` — a SINGLE type
error per file; the per-file results are taken here as an argument
(`results`, one entry per file, in file order).  If no file failed the
maps are returned, otherwise a report with the collected errors. -/
def Parsed.typecheck (files : List SourceFile)
    (results : List (Except TypeError (TypeMap × NameMap))) :
    Except RotoReport TypeChecked :=
  let collected := collectTypecheckResults results
  if collected.2.2.isEmpty then
    .ok { expr_types := collected.1, fully_qualified_names := collected.2.1 }
  else
    .error { files := files, errors := collected.2.2 }

/-! ## Helper lemmas -/

theorem strCmp_lt {a b : String} (h : strCmp a b = .lt) : a < b := by
  unfold strCmp at h
  split_ifs at h with h₁ h₂
  · exact h₁

theorem strCmp_eq {a b : String} (h : strCmp a b = .eq) : a = b := by
  unfold strCmp at h
  split_ifs at h with h₁ h₂
  exact le_antisymm (le_of_not_lt h₂) (le_of_not_lt h₁)

theorem strCmp_gt {a b : String} (h : strCmp a b = .gt) : b < a := by
  unfold strCmp at h
  split_ifs at h with h₁ h₂
  · exact h₂

theorem namedTypeDefLe_true_imp {a b : NamedTypeDef}
    (h : namedTypeDefLe a b = true) : a.1 ≤ b.1 := by
  have h' : namedTypeDefCmp a b ≠ .gt := by
    simpa [namedTypeDefLe] using h
  unfold namedTypeDefCmp at h'
  cases hs : strCmp a.1 b.1 with
  | lt => exact le_of_lt (strCmp_lt hs)
  | eq => exact le_of_eq (strCmp_eq hs)
  | gt => simp [hs, Ordering.then] at h'

theorem namedTypeDefLe_false_imp {a b : NamedTypeDef}
    (h : namedTypeDefLe a b = false) : b.1 ≤ a.1 := by
  have h' : namedTypeDefCmp a b = .gt := by
    by_contra hne
    simp [namedTypeDefLe, hne] at h
  unfold namedTypeDefCmp at h'
  cases hs : strCmp a.1 b.1 with
  | lt => simp [hs, Ordering.then] at h'
  | eq => exact le_of_eq (strCmp_eq hs).symm
  | gt => exact le_of_lt (strCmp_gt hs)

/-- `List.merge` preserves `Pairwise R` when the boolean switch `le`
refines the transitive relation `R` in both directions. -/
theorem merge_pairwise_of_refines {α : Type} (R : α → α → Prop) (le : α → α → Bool)
    (htrans : ∀ a b c, R a b → R b c → R a c)
    (h1 : ∀ a b, le a b = true → R a b)
    (h2 : ∀ a b, le a b = false → R b a) :
    ∀ (l₁ l₂ : List α), l₁.Pairwise R → l₂.Pairwise R →
      (List.merge l₁ l₂ le).Pairwise R := by
  intro l₁
  induction l₁ with
  | nil => intro l₂ _ hl₂; rw [List.nil_merge]; exact hl₂
  | cons x l₁ ih₁ =>
    intro l₂
    induction l₂ with
    | nil => intro hl₁ _; rw [List.merge_right]; exact hl₁
    | cons y l₂ ih₂ =>
      intro hl₁ hl₂
      simp only [List.merge]
      split
      case isTrue h =>
        apply List.Pairwise.cons
        · intro z m
          rw [List.mem_merge, List.mem_cons] at m
          rcases m with m | rfl | m
          · exact List.rel_of_pairwise_cons hl₁ m
          · exact h1 _ _ h
          · exact htrans _ _ _ (h1 _ _ h) (List.rel_of_pairwise_cons hl₂ m)
        · exact ih₁ _ hl₁.tail hl₂
      case isFalse h =>
        have h' : le x y = false := by simpa using h
        apply List.Pairwise.cons
        · intro z m
          rw [List.mem_merge] at m
          rcases m with m | m
          · rw [List.mem_cons] at m
            rcases m with rfl | m
            · exact h2 _ _ h'
            · exact htrans _ _ _ (h2 _ _ h') (List.rel_of_pairwise_cons hl₁ m)
          · exact List.rel_of_pairwise_cons hl₂ m
        · exact ih₂ hl₁ hl₂.tail

/-- `List.mergeSort` produces a `Pairwise R` list when the boolean switch
`le` refines the transitive relation `R` in both directions (no law about
`le` itself is needed). -/
theorem mergeSort_pairwise_of_refines {α : Type} (R : α → α → Prop) (le : α → α → Bool)
    (htrans : ∀ a b c, R a b → R b c → R a c)
    (h1 : ∀ a b, le a b = true → R a b)
    (h2 : ∀ a b, le a b = false → R b a) :
    ∀ l : List α, (l.mergeSort le).Pairwise R
  | [] => by simp [List.mergeSort]
  | [a] => by simp [List.mergeSort]
  | a :: b :: xs => by
    have : (List.splitInTwo ⟨a :: b :: xs, rfl⟩).1.1.length < xs.length + 1 + 1 := by
      simp [List.splitInTwo_fst]; omega
    have : (List.splitInTwo ⟨a :: b :: xs, rfl⟩).2.1.length < xs.length + 1 + 1 := by
      simp [List.splitInTwo_snd]; omega
    rw [List.mergeSort]
    exact merge_pairwise_of_refines R le htrans h1 h2 _ _
      (mergeSort_pairwise_of_refines R le htrans h1 h2 _)
      (mergeSort_pairwise_of_refines R le htrans h1 h2 _)
termination_by l => l.length

/-- Sorting named fields with the `Vec::sort` order yields a list whose
names are nondecreasing. -/
theorem mergeSort_namedTypeDef_sorted (l : List NamedTypeDef) :
    (l.mergeSort namedTypeDefLe).Pairwise (fun a b => a.1 ≤ b.1) :=
  mergeSort_pairwise_of_refines (fun a b => a.1 ≤ b.1) namedTypeDefLe
    (fun _ _ _ hab hbc => le_trans hab hbc)
    (fun _ _ h => namedTypeDefLe_true_imp h)
    (fun _ _ h => namedTypeDefLe_false_imp h)
    l

theorem map_pair_eta (l : List (String × TypeDef)) :
    l.map (fun std => (std.1, std.2)) = l := by
  induction l with
  | nil => rfl
  | cons x xs ih => simp [ih]

/-! ## Claim theorems -/

/-- C1 counterexample: the claim that the conversion lattice has no cycle
besides reflexivity fails at the concrete distinct pair
(`Asn`, `StringLiteral`): `test_type_conversion` accepts both
directions. -/
theorem c1_counterexample_asn_string_cycle :
    TypeDef.Asn ≠ TypeDef.StringLiteral ∧
    test_type_conversion .Asn .StringLiteral = true ∧
    test_type_conversion .StringLiteral .Asn = true :=
  ⟨(fun h => nomatch h), rfl, rfl⟩

/-- C1 (amended): the declared conversion relation is not acyclic — each
of the distinct pairs (`Asn`,`StringLiteral`), (`U8`,`PrefixLength`),
(`PrefixLength`,`IntegerLiteral`) and (`U16`,`LocalPref`) converts in
both directions under `TypeDef::test_type_conversion`, giving two-element
cycles. -/
theorem c1_conversion_two_cycles :
    (TypeDef.Asn ≠ TypeDef.StringLiteral ∧
      test_type_conversion .Asn .StringLiteral = true ∧
      test_type_conversion .StringLiteral .Asn = true) ∧
    (TypeDef.U8 ≠ TypeDef.PrefixLength ∧
      test_type_conversion .U8 .PrefixLength = true ∧
      test_type_conversion .PrefixLength .U8 = true) ∧
    (TypeDef.PrefixLength ≠ TypeDef.IntegerLiteral ∧
      test_type_conversion .PrefixLength .IntegerLiteral = true ∧
      test_type_conversion .IntegerLiteral .PrefixLength = true) ∧
    (TypeDef.U16 ≠ TypeDef.LocalPref ∧
      test_type_conversion .U16 .LocalPref = true ∧
      test_type_conversion .LocalPref .U16 = true) :=
  ⟨⟨(fun h => nomatch h), rfl, rfl⟩, ⟨(fun h => nomatch h), rfl, rfl⟩,
    ⟨(fun h => nomatch h), rfl, rfl⟩, ⟨(fun h => nomatch h), rfl, rfl⟩⟩

/-- C2 counterexample: `test_type_conversion` with source
`IntegerLiteral` and target `U16` returns `false`, contradicting the
claim that the conversion to `U16` is accepted. -/
theorem c2_counterexample_integer_to_u16 :
    test_type_conversion .IntegerLiteral .U16 = false := rfl

/-- C2 (amended): with source `IntegerLiteral`, `test_type_conversion`
returns `true` exactly for the targets `U8`, `U32`, `PrefixLength`,
`LocalPref`, `Asn`, `ConstEnumVariant(_)` and `StringLiteral`; the target
`U16` is not accepted. -/
theorem c2_integer_literal_targets (t : TypeDef) :
    test_type_conversion .IntegerLiteral t = true ↔
      (t = .U8 ∨ t = .U32 ∨ t = .PrefixLength ∨ t = .LocalPref ∨
        t = .Asn ∨ t = .StringLiteral ∨ ∃ s, t = .ConstEnumVariant s) := by
  cases t <;> simp [test_type_conversion]

/-- C2 witness: the amended characterization applied at the concrete
target `U8`. -/
theorem c2_integer_literal_targets_witness :
    test_type_conversion .IntegerLiteral .U8 = true :=
  (c2_integer_literal_targets .U8).mpr (Or.inl rfl)

/-- C8 counterexample: `BinOp::Display` prints `Ge` as `"<"`, not as
`">"` as the claim states. -/
theorem c8_counterexample_ge_display :
    BinOp.display .Ge = "<" ∧ BinOp.display .Ge ≠ ">" :=
  ⟨rfl, by decide⟩

/-- C8 (amended): the `Display` labels of `BinOp`: `Lt` prints `"<="`,
`Le` prints `"<"`, `Gt` prints `">="`, and `Ge` also prints `"<"` (the
`Le` label, not `">"`); the remaining operators print their usual
symbols. -/
theorem c8_binop_display_table :
    BinOp.display .And = "&&" ∧ BinOp.display .Or = "||" ∧
    BinOp.display .Eq = "==" ∧ BinOp.display .Ne = "!=" ∧
    BinOp.display .Lt = "<=" ∧ BinOp.display .Le = "<" ∧
    BinOp.display .Gt = ">=" ∧ BinOp.display .Ge = "<" ∧
    BinOp.display .In = "in" ∧ BinOp.display .NotIn = "not in" :=
  ⟨rfl, rfl, rfl, rfl, rfl, rfl, rfl, rfl, rfl, rfl⟩

/-- C9: whenever `VectorValue::insert_vec` on an AS path returns `Ok`,
the path stored in `self` afterwards equals the original path — the
locally built `new_path` is discarded and the original is written back,
so a successful `insert_vec` has no observable effect. -/
theorem c9_insert_vec_writes_back_original (self : AsPath) (pos : Nat)
    (vector : List Nat) (h : (insert_vec self pos vector).1 = .ok ()) :
    (insert_vec self pos vector).2 = self := by
  unfold insert_vec at h ⊢
  cases hl : insertVecLoop pos vector self.segments 0 [] with
  | error e => simp [hl] at h
  | ok np => simp [hl]

/-- C9 witness: inserting `[3]` at position 0 of the path `[[1,2]]`
succeeds and leaves the path unchanged. -/
theorem c9_insert_vec_witness :
    (insert_vec ⟨[⟨[1, 2]⟩]⟩ 0 [3]).2 = ⟨[⟨[1, 2]⟩]⟩ :=
  c9_insert_vec_writes_back_original ⟨[⟨[1, 2]⟩]⟩ 0 [3] rfl

/-- C3: every `RecordTypeDef` produced by `RecordTypeDef::new`,
`From<Vec<NamedTypeDef>>`, `From<Vec<(&str, Box<TypeDef>)>>` or
`TypeDef::new_record_type_from_short_string` stores a field vector that is
a permutation of the input whose names are nondecreasing (sorted by field
name), so no later pass needs to re-sort before comparing record types. -/
theorem c3_record_constructors_sort_fields (v : List NamedTypeDef) :
    (List.Perm (RecordTypeDef.new v).fields v ∧
      (RecordTypeDef.new v).fields.Pairwise (fun a b => a.1 ≤ b.1)) ∧
    (List.Perm (RecordTypeDef.fromNamedTypeDefs v).fields v ∧
      (RecordTypeDef.fromNamedTypeDefs v).fields.Pairwise (fun a b => a.1 ≤ b.1)) ∧
    (List.Perm (RecordTypeDef.fromStrPairs v).fields v ∧
      (RecordTypeDef.fromStrPairs v).fields.Pairwise (fun a b => a.1 ≤ b.1)) ∧
    (∃ r, new_record_type_from_short_string v = .ok (.Record r) ∧
      List.Perm r.fields v ∧ r.fields.Pairwise (fun a b => a.1 ≤ b.1)) := by
  refine ⟨⟨?_, ?_⟩, ⟨?_, ?_⟩, ⟨?_, ?_⟩, ?_⟩
  · exact List.mergeSort_perm v namedTypeDefLe
  · exact mergeSort_namedTypeDef_sorted v
  · exact List.mergeSort_perm v namedTypeDefLe
  · exact mergeSort_namedTypeDef_sorted v
  · show List.Perm ((v.mergeSort namedTypeDefLe).map _) v
    rw [map_pair_eta]
    exact List.mergeSort_perm v namedTypeDefLe
  · show List.Pairwise _ ((v.mergeSort namedTypeDefLe).map _)
    rw [map_pair_eta]
    exact mergeSort_namedTypeDef_sorted v
  · refine ⟨RecordTypeDef.new (v.mergeSort namedTypeDefLe), rfl, ?_, ?_⟩
    · exact (List.mergeSort_perm _ namedTypeDefLe).trans
        (List.mergeSort_perm v namedTypeDefLe)
    · exact mergeSort_namedTypeDef_sorted _

/-- C3 witness: the sorted-permutation property evaluated at a concrete
two-field input given in reverse name order. -/
theorem c3_record_constructors_sort_fields_witness :
    List.Perm (RecordTypeDef.new [("b", TypeDef.U8), ("a", TypeDef.Asn)]).fields
      [("b", TypeDef.U8), ("a", TypeDef.Asn)] ∧
    (RecordTypeDef.new [("b", TypeDef.U8), ("a", TypeDef.Asn)]).fields.Pairwise
      (fun a b => a.1 ≤ b.1) :=
  (c3_record_constructors_sort_fields [("b", TypeDef.U8), ("a", TypeDef.Asn)]).1

/-- If the name sequence of `fs` extended by `rest` equals the name
sequence of `gs`, then zipping `fs` with `gs` pairs equal names
throughout. -/
theorem zip_names_all_of_names_append :
    ∀ (fs gs : List (String × TypeDef)) (rest : List String),
      fs.map Prod.fst ++ rest = gs.map Prod.fst →
      ((fs.zip gs).all (fun p => p.1.1 == p.2.1)) = true := by
  intro fs
  induction fs with
  | nil => intro gs rest _; simp
  | cons x fs ih =>
    intro gs rest h
    cases gs with
    | nil => simp at h
    | cons y gs =>
      simp only [List.map_cons, List.cons_append, List.cons.injEq] at h
      obtain ⟨h₁, h₂⟩ := h
      simp only [List.zip_cons_cons, List.all_cons, Bool.and_eq_true]
      exact ⟨by simpa using h₁, ih gs rest h₂⟩

/-- C10: `PartialEq` on `RecordTypeDef` returns `true` whenever the two
field vectors agree pairwise on field names up to the length of the
shorter vector; in particular, when one record's field-name sequence is a
(proper) prefix of the other's, equality holds despite the differing
field counts and field types. -/
theorem c10_record_eq_ignores_extra_fields :
    (∀ a b : RecordTypeDef,
        ((a.fields.zip b.fields).all (fun p => p.1.1 == p.2.1)) = true →
        recordTypeDefEq a b = true) ∧
    (∀ (a b : RecordTypeDef) (rest : List String),
        a.fields.map Prod.fst ++ rest = b.fields.map Prod.fst →
        recordTypeDefEq a b = true) := by
  have key : ∀ fs gs : List (String × TypeDef),
      ((fs.zip gs).all (fun p => p.1.1 == p.2.1)) = true →
      recordTypeDefEq (.mk fs) (.mk gs) = true := by
    intro fs gs h
    unfold recordTypeDefEq
    split
    · rfl
    · exact h
  constructor
  · intro a b h
    obtain ⟨fs⟩ := a
    obtain ⟨gs⟩ := b
    exact key fs gs h
  · intro a b rest h
    obtain ⟨fs⟩ := a
    obtain ⟨gs⟩ := b
    exact key fs gs (zip_names_all_of_names_append fs gs rest h)

/-- C10 witness: a one-field record compares equal to a two-field record
extending it (even with a different type for the shared field). -/
theorem c10_record_eq_ignores_extra_fields_witness :
    recordTypeDefEq (.mk [("a", .U8)]) (.mk [("a", .Asn), ("b", .U8)]) = true :=
  c10_record_eq_ignores_extra_fields.2
    (.mk [("a", .U8)]) (.mk [("a", .Asn), ("b", .U8)]) ["b"] rfl

/-- C4: for every BMP bytes record, `get_field_index_for_variant` with a
non-empty field index and a requested variant token that differs from the
record's actual variant (`get_variant`) returns `Ok(TypeValue::Unknown)`
rather than any error. -/
theorem c4_variant_mismatch_yields_unknown (self : BytesRecordBmpMessage)
    (variant_token : LazyRecordTypeDef) (field_index : FieldIndex)
    (hne : field_index ≠ []) (hv : variant_token ≠ self.get_variant) :
    self.get_field_index_for_variant variant_token field_index = .ok .Unknown := by
  have hemp : List.isEmpty field_index = false := by
    cases field_index with
    | nil => exact absurd rfl hne
    | cons a l => rfl
  unfold BytesRecordBmpMessage.get_field_index_for_variant
  rw [hemp]
  simp only [Bool.false_eq_true, if_false]
  rw [if_pos hv]

/-- C4 witness: a record whose header parses as RouteMonitoring, asked
for a PeerUpNotification field at index `[0]`, yields `Unknown`. -/
theorem c4_variant_mismatch_yields_unknown_witness :
    BytesRecordBmpMessage.get_field_index_for_variant
      ⟨.RouteMonitoring, fun _ => .error .InvalidPayload,
        fun _ => .error .InvalidPayload, fun _ => .error .InvalidPayload,
        fun _ => .error .InvalidPayload, fun _ => .error .InvalidPayload⟩
      .PeerUpNotification [0] = .ok .Unknown :=
  c4_variant_mismatch_yields_unknown _ .PeerUpNotification [0]
    (List.cons_ne_nil 0 []) (by decide)

/-- Each file contributes at most one entry to the error list collected by
`Parsed::typecheck`. -/
theorem collectTypecheckResults_errors_length_le :
    ∀ results : List (Except TypeError (TypeMap × NameMap)),
      (collectTypecheckResults results).2.2.length ≤ results.length := by
  intro results
  induction results with
  | nil => simp [collectTypecheckResults]
  | cons r rest ih =>
    cases r with
    | ok v =>
      obtain ⟨tm, nm⟩ := v
      simpa [collectTypecheckResults] using Nat.le_succ_of_le ih
    | error e =>
      simpa [collectTypecheckResults] using ih

/-- C7 (amended): the per-file type checker returns a single
`Result<_, TypeError>`, so `Parsed::typecheck` records at most one type
error per file; a failing compile of a single source file surfaces
exactly one type error, and multiple type errors in one report only arise
from multiple files. -/
theorem c7_at_most_one_type_error_per_file (files : List SourceFile)
    (results : List (Except TypeError (TypeMap × NameMap)))
    (report : RotoReport)
    (h : Parsed.typecheck files results = .error report) :
    report.errors.length ≤ results.length ∧
    (results.length = 1 → report.errors.length = 1) := by
  unfold Parsed.typecheck at h
  by_cases hemp : (collectTypecheckResults results).2.2.isEmpty = true
  · simp [hemp] at h
  · simp only [hemp, if_false, Bool.false_eq_true] at h
    have hrep : report.errors = (collectTypecheckResults results).2.2 := by
      injection h with h
      rw [← h]
    rw [hrep]
    refine ⟨collectTypecheckResults_errors_length_le results, fun h1 => ?_⟩
    have hle := collectTypecheckResults_errors_length_le results
    rw [h1] at hle
    have hnonempty : (collectTypecheckResults results).2.2 ≠ [] := by
      intro hnil
      rw [hnil] at hemp
      exact hemp rfl
    have : 0 < (collectTypecheckResults results).2.2.length :=
      List.length_pos.mpr hnonempty
    omega

/-- C7 counterexample: a compile of a single source file whose check
fails surfaces exactly one type error in its report — never multiple:
the per-file result carries a single `TypeError`. -/
theorem c7_counterexample_single_file_one_error :
    Parsed.typecheck [⟨"test", "filter-map f {}"⟩] [.error .UnificationError] =
      .error ⟨[⟨"test", "filter-map f {}"⟩], [.Type .UnificationError]⟩ ∧
    ¬ 2 ≤ ([RotoError.Type .UnificationError] : List RotoError).length :=
  ⟨rfl, by decide⟩

/-- C7 witness: the amended bound applied to a concrete one-file
compile. -/
theorem c7_at_most_one_type_error_per_file_witness :
    (RotoReport.mk [⟨"test", "filter-map f {}"⟩]
        [.Type .UnificationError]).errors.length = 1 :=
  (c7_at_most_one_type_error_per_file [⟨"test", "filter-map f {}"⟩]
    [.error .UnificationError] _ rfl).2 rfl


theorem lookupSubst_counter (st : TcState) (n k : Nat) :
    lookupSubst { st with counter := n } k = lookupSubst st k := rfl

theorem lookupSubst_bindVar (st : TcState) (v : Nat) (t : Ty) (k : Nat) :
    lookupSubst (bindVar st v t) k =
      if k = v then some t
      else (lookupSubst st k).map (fun u => substVar v t u) := by
  unfold bindVar lookupSubst
  by_cases hkv : k = v
  · subst hkv
    simp
  · simp only [List.find?_cons]
    have : ((v, t).1 == k) = false := by
      simp [Ne.symm hkv]
    rw [this]
    rw [List.find?_map]
    have hcomp : ((fun p : Nat × Ty => p.1 == k) ∘ (fun p : Nat × Ty => (p.1, substVar v t p.2)))
        = fun p : Nat × Ty => p.1 == k := rfl
    rw [hcomp]
    simp [hkv]
    cases st.subst.find? (fun p : Nat × Ty => p.1 == k) <;> simp

theorem lookupSubst_eq_none_iff (st : TcState) (k : Nat) :
    lookupSubst st k = none ↔ ∀ p ∈ st.subst, p.1 ≠ k := by
  unfold lookupSubst
  rw [Option.map_eq_none']
  rw [List.find?_eq_none]
  constructor
  · intro h p hp
    have := h p hp
    simpa using this
  · intro h p hp
    simpa using h p hp

theorem lookupSubst_none_of_ge (st : TcState) (k : Nat)
    (hwf : ∀ p ∈ st.subst, p.1 < st.counter) (hk : st.counter ≤ k) :
    lookupSubst st k = none := by
  rw [lookupSubst_eq_none_iff]
  intro p hp
  have := hwf p hp
  omega



theorem listElemsTc_intLits :
    ∀ (vs : List Int) (st : TcState) (u j : Nat),
      lookupSubst st u = some (.IntVar j) →
      lookupSubst st j = none →
      (∀ p ∈ st.subst, p.1 < st.counter) →
      j < st.counter → u < st.counter →
      ∃ st' j',
        listElemsTc st (.Var u)
          (vs.map (fun i => .LiteralAccessExpr (.IntegerLiteral i))) = .ok st' ∧
        lookupSubst st' u = some (.IntVar j') ∧
        lookupSubst st' j' = none ∧
        (∀ p ∈ st'.subst, p.1 < st'.counter) ∧
        j' < st'.counter ∧ u < st'.counter ∧
        st.counter ≤ st'.counter ∧
        (j' = j ∨ st.counter ≤ j') ∧
        (∀ k, k < st.counter → k ≠ j → lookupSubst st k = none →
          lookupSubst st' k = none) := by
  intro vs
  induction vs with
  | nil =>
    intro st u j hu hj hwf hjc huc
    refine ⟨st, j, ?_, hu, hj, hwf, hjc, huc, le_refl _, Or.inl rfl, fun k _ _ hk => hk⟩
    simp [listElemsTc]
  | cons v rest ih =>
    intro st u j hu hj hwf hjc huc
    -- the fresh integer variable for the head element
    set c := st.counter with hc
    set st₁ : TcState := { st with counter := c + 1 } with hst₁
    have hexpr : exprTc st (.LiteralAccessExpr (.IntegerLiteral v)) = .ok (st₁, .IntVar c) := by
      simp [exprTc, literalTc, fresh_int, hst₁]
    -- unify (Var u) (IntVar c) binds j to (IntVar c)
    have hru : resolve_type st₁ (.Var u) = .IntVar j := by
      simp [resolve_type, lookupSubst_counter, hu, hst₁]
    have hjcnone : lookupSubst st₁ c = none := by
      rw [hst₁, lookupSubst_counter]
      exact lookupSubst_none_of_ge st c hwf (le_refl _)
    have hrc : resolve_type st₁ (.IntVar c) = .IntVar c := by
      simp [resolve_type, hjcnone]
    have hne : j ≠ c := by omega
    set st₂ : TcState := bindVar st₁ j (.IntVar c) with hst₂
    have hunify : unify unifyFuel st₁ (.Var u) (.IntVar c) = .ok st₂ := by
      rw [show unifyFuel = 99 + 1 from rfl]
      simp only [unify, hru, hrc]
      simp [hne]
    -- the new state satisfies the invariant with j := c
    have hu' : u ≠ j := by
      intro h
      rw [h, hj] at hu
      exact Option.noConfusion hu
    have hu₂ : lookupSubst st₂ u = some (.IntVar c) := by
      rw [hst₂, lookupSubst_bindVar]
      rw [if_neg hu']
      rw [hst₁, lookupSubst_counter, hu]
      simp [substVar]
    have hc₂ : lookupSubst st₂ c = none := by
      rw [hst₂, lookupSubst_bindVar]
      rw [if_neg (Ne.symm hne)]
      rw [hjcnone]
      rfl
    have hcc₂ : st₂.counter = c + 1 := rfl
    have hwf₂ : ∀ p ∈ st₂.subst, p.1 < st₂.counter := by
      intro p hp
      rw [hcc₂]
      rw [hst₂] at hp
      unfold bindVar at hp
      simp only [List.mem_cons] at hp
      rcases hp with rfl | hp
      · simp only []
        omega
      · rw [List.mem_map] at hp
        obtain ⟨q, hq, rfl⟩ := hp
        have := hwf q hq
        simp only []
        omega
    have ih' := ih st₂ u c hu₂ hc₂ hwf₂ (by omega) (by omega)
    obtain ⟨st', j', hlist, hu'', hj'', hwf'', hj'c, hu'c, hcmono, hjnew, hpres⟩ := ih'
    refine ⟨st', j', ?_, hu'', hj'', hwf'', hj'c, hu'c, by omega, ?_, ?_⟩
    · -- unfold one step of the element loop
      simp only [List.map_cons, listElemsTc, hexpr, hunify]
      exact hlist
    · rcases hjnew with rfl | h
      · right; omega
      · right; omega
    · intro k hk hkj hknone
      have hk₂ : lookupSubst st₂ k = none := by
        rw [hst₂, lookupSubst_bindVar]
        rw [if_neg hkj]
        rw [hst₁, lookupSubst_counter, hknone]
        rfl
      exact hpres k (by omega) (by omega) hk₂



theorem unify_step_var_left (fuel : Nat) (st : TcState) (a b : Ty) (n : Nat)
    (ha : resolve_type st a = .Var n) :
    unify (fuel + 1) st a b = .ok (bindVar st n (resolve_type st b)) := by
  simp only [unify, ha]

theorem unify_step_intvar_intvar (fuel : Nat) (st : TcState) (a b : Ty) (n m : Nat)
    (ha : resolve_type st a = .IntVar n) (hb : resolve_type st b = .IntVar m) :
    unify (fuel + 1) st a b = .ok (if n = m then st else bindVar st n (.IntVar m)) := by
  simp only [unify, ha, hb]

theorem unify_step_prim_intvar_err (fuel : Nat) (st : TcState) (a b : Ty)
    (p : Primitive) (n : Nat)
    (ha : resolve_type st a = .Primitive p) (hb : resolve_type st b = .IntVar n)
    (hp : numericPrim p = false) :
    unify (fuel + 1) st a b = .error .UnificationError := by
  simp only [unify, ha, hb, hp]
  simp

theorem unify_step_list_list (fuel : Nat) (st : TcState) (t₁ t₂ : Ty) :
    unify (fuel + 1) st (.List t₁) (.List t₂) = unify fuel st t₁ t₂ := by
  simp only [unify, resolve_type]

/-- C6: type-checking a membership test `a in L` unifies `List(type of a)`
with the type of `L`; consequently a string literal tested against a
(non-empty) list of integer literals fails with a unification error (the
string primitive is not a numeric-primitive candidate for the integer
variable), while an integer literal against the same list succeeds with
result type `Bool`. -/
theorem c6_membership_test_typing (types : List (String × Ty)) (s : String)
    (v w : Int) (vs : List Int) :
    boolean_expr ⟨0, [], types⟩
      (.ListCompareExpr (.LiteralAccessExpr (.StringLiteral s))
        (.ListExpr ((v :: vs).map (fun i => .LiteralAccessExpr (.IntegerLiteral i))))) =
      .error .UnificationError ∧
    (∃ st', boolean_expr ⟨0, [], types⟩
      (.ListCompareExpr (.LiteralAccessExpr (.IntegerLiteral w))
        (.ListExpr ((v :: vs).map (fun i => .LiteralAccessExpr (.IntegerLiteral i))))) =
      .ok (st', .Primitive .Bool)) := by
  constructor
  · -- string literal against a list of integer literals: unification fails
    set st₀ : TcState := ⟨0, [], types⟩ with hst₀
    have hleft : exprTc st₀ (.LiteralAccessExpr (.StringLiteral s)) =
        .ok (st₀, .Primitive .String) := by
      simp [exprTc, literalTc]
    -- the list expression
    set stA : TcState := ⟨1, [], types⟩ with hstA
    set stB : TcState := ⟨2, [], types⟩ with hstB
    set stC : TcState := ⟨2, [(0, .IntVar 1)], types⟩ with hstC
    have hheadexpr : exprTc stA (.LiteralAccessExpr (.IntegerLiteral v)) =
        .ok (stB, .IntVar 1) := by
      simp [exprTc, literalTc, fresh_int, hstA, hstB]
    have hheadunify : unify unifyFuel stB (.Var 0) (.IntVar 1) = .ok stC := by
      rw [show unifyFuel = 99 + 1 from rfl]
      have h1 : resolve_type stB (.Var 0) = .Var 0 := by
        simp [resolve_type, lookupSubst, hstB]
      have h2 : resolve_type stB (.IntVar 1) = .IntVar 1 := by
        simp [resolve_type, lookupSubst, hstB]
      rw [unify_step_var_left 99 stB _ _ 0 h1, h2]
      rw [hstC, hstB]
      simp [bindVar]
    obtain ⟨st', j', hlist, hu', hj', hwf', hj'c, hu'c, hcm, hjn, hpres⟩ :=
      listElemsTc_intLits vs stC 0 1 rfl rfl (by simp [hstC]) (by simp [hstC]) (by simp [hstC])
    have hright : exprTc st₀ (.ListExpr
        ((v :: vs).map (fun i => .LiteralAccessExpr (.IntegerLiteral i)))) =
        .ok (st', .List (.IntVar j')) := by
      simp only [exprTc]
      have hfv : fresh_var st₀ = (stA, .Var 0) := by
        simp [fresh_var, hst₀, hstA]
      rw [hfv]
      simp only [List.map_cons, listElemsTc, hheadexpr, hheadunify, hlist]
      have : resolve_type st' (.Var 0) = .IntVar j' := by
        simp [resolve_type, hu']
      rw [this]
    have hfinal : unify unifyFuel st' (.List (.Primitive .String)) (.List (.IntVar j')) =
        .error .UnificationError := by
      rw [show unifyFuel = 99 + 1 from rfl]
      rw [unify_step_list_list]
      rw [show (99 : Nat) = 98 + 1 from rfl]
      have h1 : resolve_type st' (.Primitive .String) = .Primitive .String := by
        simp [resolve_type]
      have h2 : resolve_type st' (.IntVar j') = .IntVar j' := by
        simp [resolve_type, hj']
      exact unify_step_prim_intvar_err 98 st' _ _ .String j' h1 h2 rfl
    simp only [boolean_expr, hleft, hright, hfinal]
  · -- integer literal against a list of integer literals: succeeds
    set st₀ : TcState := ⟨0, [], types⟩ with hst₀
    set stA : TcState := ⟨1, [], types⟩ with hstA
    have hleft : exprTc st₀ (.LiteralAccessExpr (.IntegerLiteral w)) =
        .ok (stA, .IntVar 0) := by
      simp [exprTc, literalTc, fresh_int, hst₀, hstA]
    set stB : TcState := ⟨2, [], types⟩ with hstB
    set stC : TcState := ⟨3, [], types⟩ with hstC
    set stD : TcState := ⟨3, [(1, .IntVar 2)], types⟩ with hstD
    have hheadexpr : exprTc stB (.LiteralAccessExpr (.IntegerLiteral v)) =
        .ok (stC, .IntVar 2) := by
      simp [exprTc, literalTc, fresh_int, hstB, hstC]
    have hheadunify : unify unifyFuel stC (.Var 1) (.IntVar 2) = .ok stD := by
      rw [show unifyFuel = 99 + 1 from rfl]
      have h1 : resolve_type stC (.Var 1) = .Var 1 := by
        simp [resolve_type, lookupSubst, hstC]
      have h2 : resolve_type stC (.IntVar 2) = .IntVar 2 := by
        simp [resolve_type, lookupSubst, hstC]
      rw [unify_step_var_left 99 stC _ _ 1 h1, h2]
      rw [hstD, hstC]
      simp [bindVar]
    obtain ⟨st', j', hlist, hu', hj', hwf', hj'c, hu'c, hcm, hjn, hpres⟩ :=
      listElemsTc_intLits vs stD 1 2 rfl rfl (by simp [hstD]) (by simp [hstD]) (by simp [hstD])
    have hright : exprTc stA (.ListExpr
        ((v :: vs).map (fun i => .LiteralAccessExpr (.IntegerLiteral i)))) =
        .ok (st', .List (.IntVar j')) := by
      simp only [exprTc]
      have hfv : fresh_var stA = (stB, .Var 1) := by
        simp [fresh_var, hstA, hstB]
      rw [hfv]
      simp only [List.map_cons, listElemsTc, hheadexpr, hheadunify, hlist]
      have : resolve_type st' (.Var 1) = .IntVar j' := by
        simp [resolve_type, hu']
      rw [this]
    have hzero : lookupSubst st' 0 = none := by
      apply hpres 0 (by simp [hstD]) (by simp) _
      simp [lookupSubst, hstD]
    have hfinal : unify unifyFuel st' (.List (.IntVar 0)) (.List (.IntVar j')) =
        .ok (if 0 = j' then st' else bindVar st' 0 (.IntVar j')) := by
      rw [show unifyFuel = 99 + 1 from rfl]
      rw [unify_step_list_list]
      rw [show (99 : Nat) = 98 + 1 from rfl]
      have h1 : resolve_type st' (.IntVar 0) = .IntVar 0 := by
        simp [resolve_type, hzero]
      have h2 : resolve_type st' (.IntVar j') = .IntVar j' := by
        simp [resolve_type, hj']
      exact unify_step_intvar_intvar 98 st' _ _ 0 j' h1 h2
    refine ⟨if 0 = j' then st' else bindVar st' 0 (.IntVar j'), ?_⟩
    simp only [boolean_expr, hleft, hright, hfinal]



theorem recordTypeTc_keys :
    ∀ (kvs : List (String × ValueExpr)) (st st' : TcState)
      (inferred : List (String × Ty)),
      recordTypeTc st kvs = .ok (st', inferred) →
      inferred.map Prod.fst = kvs.map Prod.fst := by
  intro kvs
  induction kvs with
  | nil =>
    intro st st' inferred h
    simp only [recordTypeTc, Except.ok.injEq, Prod.mk.injEq] at h
    rw [← h.2]
    rfl
  | cons kv rest ih =>
    intro st st' inferred h
    obtain ⟨k, v⟩ := kv
    simp only [recordTypeTc] at h
    split at h
    · exact absurd h (by simp)
    · split at h
      · exact absurd h (by simp)
      · rename_i heq₁ st₁ t st₂ fields hr
        simp only [Except.ok.injEq, Prod.mk.injEq] at h
        rw [← h.2]
        simp only [List.map_cons]
        rw [ih _ _ _ hr]

theorem removeField_some_name_mem :
    ∀ (l : List (String × Ty)) (name : String) (t : Ty) (l' : List (String × Ty)),
      removeField l name = some (t, l') → name ∈ l.map Prod.fst := by
  intro l
  induction l with
  | nil => intro name t l' h; simp [removeField] at h
  | cons x xs ih =>
    intro name t l' h
    obtain ⟨n, u⟩ := x
    simp only [removeField] at h
    by_cases hn : n = name
    · simp [hn]
    · rw [if_neg hn] at h
      cases hr : removeField xs name with
      | none => rw [hr] at h; exact absurd h (by simp)
      | some p =>
        obtain ⟨t', l''⟩ := p
        simp only [List.map_cons, List.mem_cons]
        exact Or.inr (ih name t' l'' hr)

theorem removeField_some_keep :
    ∀ (l : List (String × Ty)) (name : String) (t : Ty) (l' : List (String × Ty)),
      removeField l name = some (t, l') →
      ∀ q ∈ l, q.1 ≠ name → q ∈ l' := by
  intro l
  induction l with
  | nil => intro name t l' h; simp [removeField] at h
  | cons x xs ih =>
    intro name t l' h q hq hqname
    obtain ⟨n, u⟩ := x
    simp only [removeField] at h
    by_cases hn : n = name
    · rw [if_pos hn] at h
      simp only [Option.some.injEq, Prod.mk.injEq] at h
      rw [← h.2]
      rcases List.mem_cons.mp hq with rfl | hq'
      · exact absurd hn hqname
      · exact hq'
    · rw [if_neg hn] at h
      cases hr : removeField xs name with
      | none => rw [hr] at h; exact absurd h (by simp)
      | some p =>
        obtain ⟨t', l''⟩ := p
        rw [hr] at h
        simp only [Option.map_some', Option.some.injEq, Prod.mk.injEq] at h
        rw [← h.2]
        rcases List.mem_cons.mp hq with rfl | hq'
        · exact List.mem_cons_self _ _
        · exact List.mem_cons_of_mem _ (ih name t' l'' hr q hq' hqname)

theorem removeField_some_sub :
    ∀ (l : List (String × Ty)) (name : String) (t : Ty) (l' : List (String × Ty)),
      removeField l name = some (t, l') →
      ∀ q ∈ l', q ∈ l := by
  intro l
  induction l with
  | nil => intro name t l' h; simp [removeField] at h
  | cons x xs ih =>
    intro name t l' h q hq
    obtain ⟨n, u⟩ := x
    simp only [removeField] at h
    by_cases hn : n = name
    · rw [if_pos hn] at h
      simp only [Option.some.injEq, Prod.mk.injEq] at h
      rw [← h.2] at hq
      exact List.mem_cons_of_mem _ hq
    · rw [if_neg hn] at h
      cases hr : removeField xs name with
      | none => rw [hr] at h; exact absurd h (by simp)
      | some p =>
        obtain ⟨t', l''⟩ := p
        rw [hr] at h
        simp only [Option.map_some', Option.some.injEq, Prod.mk.injEq] at h
        rw [← h.2] at hq
        rcases List.mem_cons.mp hq with rfl | hq'
        · exact List.mem_cons_self _ _
        · exact List.mem_cons_of_mem _ (ih name t' l'' hr q hq')

theorem checkInferredFields_error_of_extra :
    ∀ (inferred rt : List (String × Ty)) (st : TcState) (rn : String),
      (∃ p ∈ inferred, p.1 ∉ rt.map Prod.fst) →
      ∃ e, checkInferredFields rn st rt inferred = .error e := by
  intro inferred
  induction inferred with
  | nil => intro rt st rn hex; simp at hex
  | cons p rest ih =>
    intro rt st rn hex
    obtain ⟨n, t⟩ := p
    cases hrf : removeField rt n with
    | none =>
      refine ⟨TypeError.Custom
        ("record `" ++ rn ++ "` does not have a field `" ++ n ++ "`."), ?_⟩
      simp [checkInferredFields, hrf]
    | some pr =>
      obtain ⟨ty, rt'⟩ := pr
      obtain ⟨p₀, hp₀mem, hp₀⟩ := hex
      rcases List.mem_cons.mp hp₀mem with rfl | hp₀'
      · exact absurd (removeField_some_name_mem rt n ty rt' hrf) hp₀
      · have hsubnames : p₀.1 ∉ rt'.map Prod.fst := by
          intro hmem
          rw [List.mem_map] at hmem
          obtain ⟨q, hq, hq1⟩ := hmem
          have : q ∈ rt := removeField_some_sub rt n ty rt' hrf q hq
          exact hp₀ (by rw [List.mem_map]; exact ⟨q, this, hq1⟩)
        cases hu : unify unifyFuel st t ty with
        | error e => exact ⟨e, by simp [checkInferredFields, hrf, hu]⟩
        | ok st₂ =>
          obtain ⟨e, he⟩ := ih rt' st₂ rn ⟨p₀, hp₀', hsubnames⟩
          exact ⟨e, by simp [checkInferredFields, hrf, hu, he]⟩

theorem checkInferredFields_ok_mem :
    ∀ (inferred rt : List (String × Ty)) (st st' : TcState) (rn : String)
      (remaining : List (String × Ty)),
      checkInferredFields rn st rt inferred = .ok (st', remaining) →
      (∀ q ∈ rt, q.1 ∉ inferred.map Prod.fst → q ∈ remaining) ∧
      (∀ q ∈ remaining, q ∈ rt) := by
  intro inferred
  induction inferred with
  | nil =>
    intro rt st st' rn remaining h
    simp only [checkInferredFields, Except.ok.injEq, Prod.mk.injEq] at h
    rw [← h.2]
    exact ⟨fun q hq _ => hq, fun q hq => hq⟩
  | cons p rest ih =>
    intro rt st st' rn remaining h
    obtain ⟨n, t⟩ := p
    simp only [checkInferredFields] at h
    cases hrf : removeField rt n with
    | none => rw [hrf] at h; exact absurd h (by simp)
    | some pr =>
      obtain ⟨ty, rt'⟩ := pr
      rw [hrf] at h
      dsimp only at h
      cases hu : unify unifyFuel st t ty with
      | error e => rw [hu] at h; exact absurd h (by simp)
      | ok st₂ =>
        rw [hu] at h
        dsimp only at h
        obtain ⟨ihkeep, ihsub⟩ := ih rt' st₂ st' rn remaining h
        constructor
        · intro q hq hqnames
          simp only [List.map_cons, List.mem_cons] at hqnames
          push_neg at hqnames
          exact ihkeep q
            (removeField_some_keep rt n ty rt' hrf q hq hqnames.1)
            (by
              intro hmem
              exact hqnames.2 hmem)
        · intro q hq
          exact removeField_some_sub rt n ty rt' hrf q (ihsub q hq)



/-- C5: type-checking a typed record literal `Name { k: v, … }`: (a) a
supplied field not declared in the named record type yields a type error;
(b) if the fields type-check and unify, every declared field absent from
the literal yields a `MissingFields` error listing each absent field by
name; (c) otherwise the expression gets the named record type. -/
theorem c5_typed_record_literal (st : TcState) (typeId recordName : String)
    (declared : List (String × Ty)) (keyValues : List (String × ValueExpr))
    (hty : lookupTypes st typeId = some (.NamedRecord recordName declared)) :
    ((∃ kv ∈ keyValues, kv.1 ∉ declared.map Prod.fst) →
      ∃ e, exprTc st (.TypedRecordExpr typeId keyValues) = .error e) ∧
    (∀ (st₁ : TcState) (inferred : List (String × Ty)) (st₂ : TcState)
        (remaining : List (String × Ty)),
      recordTypeTc st keyValues = .ok (st₁, inferred) →
      checkInferredFields recordName st₁ declared inferred = .ok (st₂, remaining) →
      (∃ d ∈ declared, d.1 ∉ keyValues.map Prod.fst) →
      exprTc st (.TypedRecordExpr typeId keyValues) =
        .error (.MissingFields (remaining.map (fun p => p.1)) typeId) ∧
      (∀ d ∈ declared, d.1 ∉ keyValues.map Prod.fst →
        d.1 ∈ remaining.map Prod.fst) ∧
      (∀ nm ∈ remaining.map Prod.fst, nm ∈ declared.map Prod.fst)) ∧
    (∀ (st₁ : TcState) (inferred : List (String × Ty)) (st₂ : TcState),
      recordTypeTc st keyValues = .ok (st₁, inferred) →
      checkInferredFields recordName st₁ declared inferred = .ok (st₂, []) →
      exprTc st (.TypedRecordExpr typeId keyValues) = .ok (st₂, .Name recordName)) := by
  refine ⟨?_, ?_, ?_⟩
  · -- (a) a supplied field that is not declared forces an error
    intro ⟨kv, hkvmem, hkvnames⟩
    simp only [exprTc, hty]
    cases hrt : recordTypeTc st keyValues with
    | error e => exact ⟨e, rfl⟩
    | ok p =>
      obtain ⟨st₁, inferred⟩ := p
      have hkeys := recordTypeTc_keys keyValues st st₁ inferred hrt
      have hex : ∃ q ∈ inferred, q.1 ∉ declared.map Prod.fst := by
        have : kv.1 ∈ inferred.map Prod.fst := by
          rw [hkeys, List.mem_map]
          exact ⟨kv, hkvmem, rfl⟩
        rw [List.mem_map] at this
        obtain ⟨q, hqmem, hq1⟩ := this
        exact ⟨q, hqmem, by rw [hq1]; exact hkvnames⟩
      obtain ⟨e, he⟩ := checkInferredFields_error_of_extra inferred declared st₁
        recordName hex
      refine ⟨e, ?_⟩
      dsimp only
      rw [he]
  · -- (b) absent declared fields produce a MissingFields error listing them
    intro st₁ inferred st₂ remaining hrt hci ⟨d, hdmem, hdnames⟩
    have hkeys := recordTypeTc_keys keyValues st st₁ inferred hrt
    obtain ⟨hkeep, hsub⟩ :=
      checkInferredFields_ok_mem inferred declared st₁ st₂ recordName remaining hci
    have hdrem : d ∈ remaining := by
      apply hkeep d hdmem
      rw [hkeys]
      exact hdnames
    have hdremnames : d.1 ∈ remaining.map Prod.fst := by
      rw [List.mem_map]; exact ⟨d, hdrem, rfl⟩
    have hnonempty : (remaining.map (fun p : String × Ty => p.1)).isEmpty = false := by
      cases remaining with
      | nil => simp at hdremnames
      | cons r rs => rfl
    refine ⟨?_, ?_, ?_⟩
    · simp only [exprTc, hty]
      rw [hrt]
      dsimp only
      rw [hci]
      dsimp only
      rw [hnonempty]
      simp
    · intro d' hd'mem hd'names
      have : d' ∈ remaining := by
        apply hkeep d' hd'mem
        rw [hkeys]
        exact hd'names
      rw [List.mem_map]
      exact ⟨d', this, rfl⟩
    · intro nm hnm
      rw [List.mem_map] at hnm
      obtain ⟨q, hqmem, hq1⟩ := hnm
      rw [List.mem_map]
      exact ⟨q, hsub q hqmem, hq1⟩
  · -- (c) all declared fields present: the expression gets the named type
    intro st₁ inferred st₂ hrt hci
    simp only [exprTc, hty]
    rw [hrt]
    dsimp only
    rw [hci]
    simp



theorem unify_step_prim_prim_eq (fuel : Nat) (st : TcState) (a b : Ty) (p : Primitive)
    (ha : resolve_type st a = .Primitive p) (hb : resolve_type st b = .Primitive p) :
    unify (fuel + 1) st a b = .ok st := by
  simp only [unify, ha, hb]
  simp

/-- C5 witness (spec scenario S5): `Message { prefix: p }` where
`Message` declares `{prefix, peer_ip}` produces a missing-fields error
listing `peer_ip`. -/
theorem c5_typed_record_literal_witness :
    exprTc ⟨0, [], [("Message", .NamedRecord "Message"
        [("prefix", .Primitive .Prefix), ("peer_ip", .Primitive .IpAddress)])]⟩
      (.TypedRecordExpr "Message"
        [("prefix", .LiteralAccessExpr (.PrefixLiteral "10.0.0.0/8"))]) =
      .error (.MissingFields ["peer_ip"] "Message") := by
  have hrt : recordTypeTc
      ⟨0, [], [("Message", .NamedRecord "Message"
        [("prefix", .Primitive .Prefix), ("peer_ip", .Primitive .IpAddress)])]⟩
      [("prefix", .LiteralAccessExpr (.PrefixLiteral "10.0.0.0/8"))] =
      .ok (⟨0, [], [("Message", .NamedRecord "Message"
        [("prefix", .Primitive .Prefix), ("peer_ip", .Primitive .IpAddress)])]⟩,
        [("prefix", .Primitive .Prefix)]) := by
    simp [recordTypeTc, exprTc, literalTc]
  have hci : checkInferredFields "Message"
      ⟨0, [], [("Message", .NamedRecord "Message"
        [("prefix", .Primitive .Prefix), ("peer_ip", .Primitive .IpAddress)])]⟩
      [("prefix", .Primitive .Prefix), ("peer_ip", .Primitive .IpAddress)]
      [("prefix", .Primitive .Prefix)] =
      .ok (⟨0, [], [("Message", .NamedRecord "Message"
        [("prefix", .Primitive .Prefix), ("peer_ip", .Primitive .IpAddress)])]⟩,
        [("peer_ip", .Primitive .IpAddress)]) := by
    have hstep := unify_step_prim_prim_eq 99
      ⟨0, [], [("Message", .NamedRecord "Message"
        [("prefix", .Primitive .Prefix), ("peer_ip", .Primitive .IpAddress)])]⟩
      (.Primitive .Prefix) (.Primitive .Prefix) .Prefix rfl rfl
    simp only [checkInferredFields, removeField]
    simp only [show ("prefix" = "prefix") = True by simp, if_true]
    rw [show unifyFuel = 99 + 1 from rfl, hstep]
  exact ((c5_typed_record_literal
      ⟨0, [], [("Message", .NamedRecord "Message"
        [("prefix", .Primitive .Prefix), ("peer_ip", .Primitive .IpAddress)])]⟩
      "Message" "Message"
      [("prefix", .Primitive .Prefix), ("peer_ip", .Primitive .IpAddress)]
      [("prefix", .LiteralAccessExpr (.PrefixLiteral "10.0.0.0/8"))]
      rfl).2.1
    ⟨0, [], [("Message", .NamedRecord "Message"
        [("prefix", .Primitive .Prefix), ("peer_ip", .Primitive .IpAddress)])]⟩
    [("prefix", .Primitive .Prefix)]
    ⟨0, [], [("Message", .NamedRecord "Message"
        [("prefix", .Primitive .Prefix), ("peer_ip", .Primitive .IpAddress)])]⟩
    [("peer_ip", .Primitive .IpAddress)]
    hrt hci
    ⟨("peer_ip", .Primitive .IpAddress),
      List.mem_cons_of_mem _ (List.mem_cons_self _ _), by decide⟩).1

/-- C6 witness (spec scenario S3): `"x" in [1,2,3]` is rejected with a
unification error. -/
theorem c6_membership_test_typing_witness :
    boolean_expr ⟨0, [], []⟩
      (.ListCompareExpr (.LiteralAccessExpr (.StringLiteral "x"))
        (.ListExpr (([1, 2, 3] : List Int).map
          (fun i => .LiteralAccessExpr (.IntegerLiteral i))))) =
      .error .UnificationError :=
  (c6_membership_test_typing [] "x" 1 100 [2, 3]).1


end Roto
